import Mathlib

/-!
Verification of the `jge_Catalog` data-management class (`catalogs.py`).

The Python class is shallowly embedded: the DynamoDB backend is modelled as
the ordered list of scan responses it would serve, pandas DataFrames as lists
of typed rows, Python dicts as association lists (insertion ordered, as in
CPython), and Python exceptions (`KeyError`, `IndexError`, `TypeError`) as an
`Except` error type.  All definitions are executable.
-/

set_option autoImplicit false

namespace Catalogs

/-- A Python exception, as raised by the modelled code paths.  `notFound` is
the explicit "version not found" error the specification asks for; the source
never raises it (it is used only to state divergences). -/
inductive PyError where
  | keyError
  | indexError
  | typeError
  | notFound
  deriving DecidableEq, Repr

/-- Whether an `Except` computation succeeded (Python: no exception raised). -/
def exceptOk {ε α : Type} : Except ε α → Bool
  | .ok _ => true
  | .error _ => false

/-- A raw DynamoDB item (`CatalogRecord`).  Each attribute of the Python dict
is modelled as an `Option` (a missing key is `none`); `fields` holds the
record's sequence of metadata blocks, one block modelled as a `String`. -/
structure RawRecord where
  featureName : Option String        -- item key: feature-name
  versionID : Option String          -- item key: s3-versionID
  featureType : Option String        -- item key: feature-type
  location : Option String           -- item key: s3-file-gdb-zip-location
  fields : Option (List String)      -- item key: fields
  deriving DecidableEq, Repr

/-- One response of `table.scan`: a page of items plus the continuation token
(`LastEvaluatedKey`), present exactly when more pages remain. -/
structure ScanResponse where
  Items : List RawRecord
  LastEvaluatedKey : Option String
  deriving DecidableEq, Repr

/-- The `while 'LastEvaluatedKey' in response` loop of `__queryCatalog__`:
as long as the current response carries a token, fetch the next page and
extend the accumulated list.  The backend is modelled as the ordered list of
the responses it serves to the successive `table.scan` calls. -/
def scanLoop : ScanResponse → List ScanResponse → List RawRecord
  | _, [] => []
  | resp, r :: rs =>
    if resp.LastEvaluatedKey.isSome then r.Items ++ scanLoop r rs else []

/-- `jge_Catalog.__queryCatalog__` (the spec's `scanAll`): first `table.scan`
gives the head response; the loop then accumulates the remaining pages. -/
def queryCatalog : List ScanResponse → List RawRecord
  | [] => []
  | r :: rs => r.Items ++ scanLoop r rs

/-- Well-formedness of a paginated backend: every page except the last
carries a continuation token, and the last page carries none. -/
def chained : List ScanResponse → Bool
  | [] => true
  | [p] => p.LastEvaluatedKey.isNone
  | p :: q :: rest => p.LastEvaluatedKey.isSome && chained (q :: rest)

lemma scanLoop_join (rest : List ScanResponse) :
    ∀ resp : ScanResponse, chained (resp :: rest) = true →
      scanLoop resp rest = (rest.map (fun p => p.Items)).flatten := by
  induction rest with
  | nil => intro resp _; simp [scanLoop]
  | cons r rs ih =>
    intro resp h
    simp only [chained, Bool.and_eq_true] at h
    simp [scanLoop, h.1, ih r h.2]

/-- Claim C1: for every scan result consisting of N ≥ 1 pages whose
continuation tokens are well-formed (a token on every page except the last),
`__queryCatalog__` returns the concatenation of all page items in page
order, each item exactly once. -/
theorem scanAll_concat_pages (pages : List ScanResponse)
    (hne : pages ≠ []) (hchain : chained pages = true) :
    queryCatalog pages = (pages.map (fun p => p.Items)).flatten := by
  cases pages with
  | nil => exact absurd rfl hne
  | cons p rest =>
    simp [queryCatalog, scanLoop_join rest p hchain]

def page1 : ScanResponse :=
  { Items := [{ featureName := some ("fA"), versionID := some ("v1"),
                featureType := some ("Raster Dataset"),
                location := some ("s3://bucket/a.zip"),
                fields := some [("blockA")] }],
    LastEvaluatedKey := some ("k1") }

def page2 : ScanResponse :=
  { Items := [{ featureName := some ("fB"), versionID := some ("v2"),
                featureType := some ("Feature Class"),
                location := some ("s3://bucket/b.zip"),
                fields := some [("blockB")] }],
    LastEvaluatedKey := none }

/-- Witness for claim C1 at a concrete two-page scan result. -/
theorem scanAll_concat_pages_witness :
    [page1, page2] ≠ ([] : List ScanResponse)
    ∧ chained [page1, page2] = true
    ∧ queryCatalog [page1, page2]
        = (([page1, page2]).map (fun p => p.Items)).flatten
    ∧ queryCatalog [page1, page2] = page1.Items ++ page2.Items := by
  refine ⟨by decide, by decide, scanAll_concat_pages _ (by decide) (by decide), by decide⟩

/-- One row of the Feature Index DataFrame built by `__getCatalogFeatures__`. -/
structure FeatureRow where
  featureName : String        -- column: feature-name
  versionID : String          -- column: s3-versionID
  featureType : String        -- column: feature-type
  location : String           -- column: s3-file-gdb-zip-location
  deriving DecidableEq, Repr

/-- One row of the Metadata Index DataFrame built by `__getCatalogMetadata__`;
`fields` is the first metadata block of the record (`ds['fields'][0]`). -/
structure MetaRow where
  featureName : String        -- column: feature-name
  versionID : String          -- column: s3-versionID
  fields : String             -- column: fields (first block only)
  deriving DecidableEq, Repr

/-- The `row_data` built for one record by `__getCatalogFeatures__`: the four
dict accesses `dict_entry['feature-name']` … raise `KeyError` on a missing
key. -/
def featRowOf (r : RawRecord) : Except PyError FeatureRow :=
  match r.featureName, r.versionID, r.featureType, r.location with
  | some name, some version, some ftype, some loc => .ok ⟨name, version, ftype, loc⟩
  | _, _, _, _ => .error .keyError

/-- `jge_Catalog.__getCatalogFeatures__`: appends the `row_data` of every
scanned record in order; the first raising record aborts the build. -/
def getCatalogFeatures : List RawRecord → Except PyError (List FeatureRow)
  | [] => .ok []
  | r :: rest =>
    match featRowOf r with
    | .ok row =>
      match getCatalogFeatures rest with
      | .ok tail => .ok (row :: tail)
      | .error e => .error e
    | .error e => .error e

/-- The `row_data` built for one record by `__getCatalogMetadata__`: a missing
dict key raises `KeyError`, and `ds['fields'][0]` on an empty fields list
raises `IndexError`. -/
def metaRowOf (r : RawRecord) : Except PyError MetaRow :=
  match r.featureName, r.versionID, r.fields with
  | some name, some version, some blocks =>
    match blocks with
    | [] => .error .indexError
    | b :: _ => .ok ⟨name, version, b⟩
  | _, _, _ => .error .keyError

/-- `jge_Catalog.__getCatalogMetadata__`: appends the metadata `row_data` of
every scanned record in order; the first raising record aborts the build. -/
def getCatalogMetadata : List RawRecord → Except PyError (List MetaRow)
  | [] => .ok []
  | r :: rest =>
    match metaRowOf r with
    | .ok row =>
      match getCatalogMetadata rest with
      | .ok tail => .ok (row :: tail)
      | .error e => .error e
    | .error e => .error e

/-- The constructed `jge_Catalog` object: cached scan projections and the
feature count, as set up by `__init__`. -/
structure jge_Catalog where
  table : String
  Features : List FeatureRow
  Metadata : List MetaRow
  FeaturesCount : Nat
  deriving DecidableEq, Repr

/-- The index-building part of `jge_Catalog.__init__`, applied to an already
scanned dataset `ds`: build the Feature Index, then the Metadata Index; any
exception from either builder aborts construction. -/
def mkCatalogFromDs (table : String) (ds : List RawRecord) : Except PyError jge_Catalog :=
  match getCatalogFeatures ds with
  | .error e => .error e
  | .ok feats =>
    match getCatalogMetadata ds with
    | .error e => .error e
    | .ok meta =>
      .ok { table := table, Features := feats, Metadata := meta,
            FeaturesCount := feats.length }

/-- `jge_Catalog.__init__`: scan the backend, then build both indices. -/
def jgeInit (table : String) (backend : List ScanResponse) : Except PyError jge_Catalog :=
  mkCatalogFromDs table (queryCatalog backend)

/-- A scanned record provides all four feature-column keys. -/
def featComplete (r : RawRecord) : Bool :=
  r.featureName.isSome && r.versionID.isSome && r.featureType.isSome && r.location.isSome

/-- A scanned record provides the metadata keys and a non-empty fields list. -/
def metaComplete (r : RawRecord) : Bool :=
  r.featureName.isSome && r.versionID.isSome &&
    (match r.fields with
     | some (_ :: _) => true
     | _ => false)

/-- A scanned record provides every key the constructor reads, with a
non-empty fields sequence. -/
def recordComplete (r : RawRecord) : Bool :=
  r.featureName.isSome && r.versionID.isSome && r.featureType.isSome &&
    r.location.isSome &&
    (match r.fields with
     | some (_ :: _) => true
     | _ => false)

lemma featRowOf_ok (r : RawRecord) :
    exceptOk (featRowOf r) = featComplete r := by
  cases hn : r.featureName <;> cases hv : r.versionID <;>
    cases ht : r.featureType <;> cases hl : r.location <;>
    simp [featRowOf, featComplete, hn, hv, ht, hl, exceptOk]

lemma metaRowOf_ok (r : RawRecord) :
    exceptOk (metaRowOf r) = metaComplete r := by
  cases hn : r.featureName <;> cases hv : r.versionID <;>
    cases hf : r.fields <;>
    simp only [metaRowOf, metaComplete, hn, hv, hf, exceptOk,
      Option.isSome_some, Option.isSome_none, Bool.false_and, Bool.and_false,
      Bool.true_and, Bool.and_true] <;> try rfl
  rename_i blocks
  cases blocks <;> rfl

lemma getCatalogFeatures_ok_iff (ds : List RawRecord) :
    exceptOk (getCatalogFeatures ds) = true ↔ ∀ r ∈ ds, featComplete r = true := by
  induction ds with
  | nil => simp [getCatalogFeatures, exceptOk]
  | cons r rest ih =>
    have hfc := featRowOf_ok r
    cases hr : featRowOf r <;> rw [hr] at hfc <;>
      cases hrec : getCatalogFeatures rest <;>
      simp_all [getCatalogFeatures, exceptOk, List.forall_mem_cons]

lemma getCatalogMetadata_ok_iff (ds : List RawRecord) :
    exceptOk (getCatalogMetadata ds) = true ↔ ∀ r ∈ ds, metaComplete r = true := by
  induction ds with
  | nil => simp [getCatalogMetadata, exceptOk]
  | cons r rest ih =>
    have hmc := metaRowOf_ok r
    cases hr : metaRowOf r <;> rw [hr] at hmc <;>
      cases hrec : getCatalogMetadata rest <;>
      simp_all [getCatalogMetadata, exceptOk, List.forall_mem_cons]

lemma mkCatalogFromDs_ok_iff (table : String) (ds : List RawRecord) :
    exceptOk (mkCatalogFromDs table ds) = true ↔ ∀ r ∈ ds, recordComplete r = true := by
  have hsplit : ∀ r : RawRecord,
      recordComplete r = (featComplete r && metaComplete r) := by
    intro r
    cases r.featureName <;> cases r.versionID <;> cases r.featureType <;>
      cases r.location <;> cases hf : r.fields <;>
      simp [recordComplete, featComplete, metaComplete, hf, Bool.and_comm,
        Bool.and_assoc, Bool.and_left_comm]
  constructor
  · intro h r hr
    rw [hsplit r, Bool.and_eq_true]
    unfold mkCatalogFromDs at h
    cases hfe : getCatalogFeatures ds with
    | error e => rw [hfe] at h; simp [exceptOk] at h
    | ok feats =>
      cases hme : getCatalogMetadata ds with
      | error e => rw [hfe, hme] at h; simp [exceptOk] at h
      | ok meta =>
        refine ⟨(getCatalogFeatures_ok_iff ds).1 (by simp [hfe, exceptOk]) r hr,
          (getCatalogMetadata_ok_iff ds).1 (by simp [hme, exceptOk]) r hr⟩
  · intro h
    have hf : exceptOk (getCatalogFeatures ds) = true :=
      (getCatalogFeatures_ok_iff ds).2 (fun r hr => by
        have := h r hr; rw [hsplit r, Bool.and_eq_true] at this; exact this.1)
    have hm : exceptOk (getCatalogMetadata ds) = true :=
      (getCatalogMetadata_ok_iff ds).2 (fun r hr => by
        have := h r hr; rw [hsplit r, Bool.and_eq_true] at this; exact this.2)
    unfold mkCatalogFromDs
    cases hfe : getCatalogFeatures ds with
    | error e => rw [hfe] at hf; simp [exceptOk] at hf
    | ok feats =>
      cases hme : getCatalogMetadata ds with
      | error e => rw [hme] at hm; simp [exceptOk] at hm
      | ok meta => simp [exceptOk]

/-- Claim C10: catalog construction succeeds exactly when every scanned
record carries the keys feature-name, s3-versionID, feature-type,
s3-file-gdb-zip-location and a non-empty fields sequence; otherwise index
building raises and no catalog object is produced. -/
theorem init_requires_complete_records (table : String) (backend : List ScanResponse) :
    exceptOk (jgeInit table backend) = true
      ↔ ∀ r ∈ queryCatalog backend, recordComplete r = true :=
  mkCatalogFromDs_ok_iff table (queryCatalog backend)

/-- Witness for claim C10: construction succeeds on a complete two-record
backend and fails on a backend whose record lacks the fields key. -/
theorem init_requires_complete_records_witness :
    exceptOk (jgeInit ("jge-catalog-test-03") [page1, page2]) = true
    ∧ exceptOk (jgeInit ("jge-catalog-test-03")
        [{ Items := [{ featureName := some ("fA"), versionID := some ("v1"),
                       featureType := some ("Raster Dataset"),
                       location := some ("s3://bucket/a.zip"),
                       fields := none }],
           LastEvaluatedKey := none }]) = false := by
  constructor
  · exact (init_requires_complete_records _ _).2 (by decide)
  · decide

/-- `jge_Catalog.dumps`: re-runs `__queryCatalog__` against the backend; the
cached catalog object `c` is not consulted. -/
def dumps (backend : List ScanResponse) (c : jge_Catalog) : List RawRecord :=
  queryCatalog backend

/-- Claim C9: with an unmutated backend, two calls to `dumps` return equal
record sequences — even from catalog objects whose cached Feature/Metadata
Index differ — and each call is exactly a fresh full scan of the backend. -/
theorem dumps_fresh_scan (backend : List ScanResponse) (c1 c2 : jge_Catalog) :
    dumps backend c1 = dumps backend c2 ∧ dumps backend c1 = queryCatalog backend :=
  ⟨rfl, rfl⟩

/-- The value triple stored for a row by `getObjectsByVersionID`
(`res.loc[i].values` over columns feature-name, feature-type,
s3-file-gdb-zip-location). -/
def featureTriple (r : FeatureRow) : String × String × String :=
  (r.featureName, r.featureType, r.location)

/-- Python `key in db` on a dict modelled as an association list. -/
def dictHasKey {β : Type} (db : List (String × β)) (k : String) : Bool :=
  db.any (fun p => p.1 == k)

/-- Python `db[k].append(t)` for a dict of lists. -/
def dbAppend {β : Type} (db : List (String × List β)) (k : String) (t : β) :
    List (String × List β) :=
  db.map (fun p => if p.1 == k then (p.1, p.2 ++ [t]) else p)

/-- Python `db[k] = [t]` for a key not yet present (CPython appends it). -/
def dbInsert {β : Type} (db : List (String × List β)) (k : String) (t : β) :
    List (String × List β) :=
  db ++ [(k, [t])]

/-- `jge_Catalog.getObjectsByVersionID`: filter the Feature Index on the
queried version, and if any row matches, accumulate each row's triple under
the single key `versionID`. -/
def getObjectsByVersionID (c : jge_Catalog) (versionID : String) :
    List (String × List (String × String × String)) :=
  let res := c.Features.filter (fun r => r.versionID == versionID)
  if res.length == 0 then []
  else
    res.foldl (fun db r =>
      if dictHasKey db versionID then dbAppend db versionID (featureTriple r)
      else dbInsert db versionID (featureTriple r)) []

lemma objFold_single (v : String) (ts : List FeatureRow) :
    ∀ acc : List (String × String × String),
      ts.foldl (fun db r =>
          if dictHasKey db v then dbAppend db v (featureTriple r)
          else dbInsert db v (featureTriple r)) [(v, acc)]
        = [(v, acc ++ ts.map featureTriple)] := by
  induction ts with
  | nil => intro acc; simp
  | cons t ts ih =>
    intro acc
    have hhas : dictHasKey [(v, acc)] v = true := by simp [dictHasKey]
    have happ : dbAppend [(v, acc)] v (featureTriple t) = [(v, acc ++ [featureTriple t])] := by
      simp [dbAppend]
    simp only [List.foldl_cons, hhas, if_true, happ, ih, List.map_cons]
    simp

/-- Claim C2: `getObjectsByVersionID(v)` returns the empty dict when no
Feature Index row matches `v`, and otherwise a dict whose only key is `v`,
listing the (feature-name, feature-type, location) triple of every matching
row; the number of listed entries equals the number of matching rows. -/
theorem getObjectsByVersionID_spec (c : jge_Catalog) (v : String) :
    getObjectsByVersionID c v =
      (if (c.Features.filter (fun r => r.versionID == v)).length == 0 then []
       else [(v, (c.Features.filter (fun r => r.versionID == v)).map featureTriple)])
    ∧ ∀ p ∈ getObjectsByVersionID c v,
        p.2.length = (c.Features.filter (fun r => r.versionID == v)).length := by
  have heq : getObjectsByVersionID c v =
      (if (c.Features.filter (fun r => r.versionID == v)).length == 0 then []
       else [(v, (c.Features.filter (fun r => r.versionID == v)).map featureTriple)]) := by
    unfold getObjectsByVersionID
    cases hres : c.Features.filter (fun r => r.versionID == v) with
    | nil => simp
    | cons t ts =>
      have hstep : dictHasKey ([] : List (String × List (String × String × String))) v = false := by
        simp [dictHasKey]
      simp only [List.length_cons, List.foldl_cons, hstep, Bool.false_eq_true,
        if_false, dbInsert, List.nil_append]
      have hfold := objFold_single v ts [featureTriple t]
      simp only [dbInsert] at hfold
      rw [hfold]
      simp
  refine ⟨heq, ?_⟩
  intro p hp
  rw [heq] at hp
  by_cases hlen : (c.Features.filter (fun r => r.versionID == v)).length == 0
  · simp [hlen] at hp
  · simp only [hlen, Bool.false_eq_true, if_false, List.mem_singleton] at hp
    subst hp
    simp

def featRow1 : FeatureRow :=
  { featureName := ("fA"), versionID := ("v1"),
    featureType := ("Raster Dataset"), location := ("s3://bucket/a.zip") }

def featRow2 : FeatureRow :=
  { featureName := ("fB"), versionID := ("v1"),
    featureType := ("Feature Class"), location := ("s3://bucket/b.zip") }

def featRow3 : FeatureRow :=
  { featureName := ("fC"), versionID := ("v2"),
    featureType := ("Feature Class"), location := ("s3://bucket/c.zip") }

def cat3 : jge_Catalog :=
  { table := ("jge-catalog-test-03"), Features := [featRow1, featRow2, featRow3],
    Metadata := [], FeaturesCount := 3 }

/-- Witness for claim C2 at a concrete three-row Feature Index: two rows
match "v1", one does not; the result has the single key "v1" with two
entries, and the queried-but-absent version "v9" yields the empty dict. -/
theorem getObjectsByVersionID_spec_witness :
    ((("v1"), [featureTriple featRow1, featureTriple featRow2])
        ∈ getObjectsByVersionID cat3 ("v1")
      → [featureTriple featRow1, featureTriple featRow2].length
          = (cat3.Features.filter (fun r => r.versionID == ("v1"))).length)
    ∧ getObjectsByVersionID cat3 ("v1")
        = [(("v1"), [featureTriple featRow1, featureTriple featRow2])]
    ∧ getObjectsByVersionID cat3 ("v9") = [] := by
  refine ⟨(getObjectsByVersionID_spec cat3 ("v1")).2 _, by decide, by decide⟩

/-- Step 1 of `jge_Catalog.__download_s3_zip__`: select the matching rows'
locations, `.head(1).values`, then index `s3_key[0][0]`.  On an empty
selection, `s3_key[0]` is an out-of-bounds access raising `IndexError`. -/
def downloadLookupLocation (c : jge_Catalog) (versionID : String) :
    Except PyError String :=
  match (c.Features.filter (fun r => r.versionID == versionID)).head? with
  | some r => .ok r.location
  | none => .error .indexError

def emptyCatalog : jge_Catalog :=
  { table := ("jge-catalog-test-03"), Features := [], Metadata := [],
    FeaturesCount := 0 }

/-- Claim C4 (code bug, evaluated at the failing input): for a versionID with
no matching Feature Index row, the fetch path raises `IndexError` by indexing
row zero of an empty selection, instead of the explicit NotFound error the
specification requires. -/
theorem download_missing_version_raises_index_error :
    downloadLookupLocation emptyCatalog ("v-missing") = .error PyError.indexError
    ∧ PyError.indexError ≠ PyError.notFound :=
  ⟨rfl, by decide⟩

/-- `jge_Catalog.getMetaData`: boolean-mask selection of the `fields` column
over the Metadata Index (`df.loc[cond1 & cond2, 'fields'].values`).  The
boolean-mask `.loc` never raises `IndexError`/`KeyError`, so the
`try`/`except` in the source is dead on this path and the operation is total:
it returns the matching fields blocks in row order, empty when nothing
matches. -/
def getMetaData (c : jge_Catalog) (featureName versionID : String) : List String :=
  (c.Metadata.filter (fun m => m.featureName == featureName && m.versionID == versionID)).map
    (fun m => m.fields)

/-- The Metadata Index row a complete record projects to. -/
def projMeta (r : RawRecord) : MetaRow :=
  { featureName := r.featureName.getD (""), versionID := r.versionID.getD (""),
    fields := (r.fields.getD []).headD ("") }

lemma metaRowOf_ok_eq (r : RawRecord) (row : MetaRow) (h : metaRowOf r = .ok row) :
    row = projMeta r := by
  cases hn : r.featureName <;> cases hv : r.versionID <;> cases hf : r.fields <;>
    simp_all [metaRowOf, projMeta]
  rename_i blocks
  cases blocks <;> simp_all

lemma metaComplete_shape (r : RawRecord) (h : metaComplete r = true) :
    r.featureName = some (projMeta r).featureName
    ∧ r.versionID = some (projMeta r).versionID
    ∧ ∃ bs, r.fields = some ((projMeta r).fields :: bs) := by
  cases hn : r.featureName <;> cases hv : r.versionID <;> cases hf : r.fields <;>
    simp_all [metaComplete, projMeta]
  rename_i blocks
  cases blocks <;> simp_all

lemma getCatalogMetadata_ok_eq (ds : List RawRecord) :
    ∀ meta : List MetaRow, getCatalogMetadata ds = .ok meta → meta = ds.map projMeta := by
  induction ds with
  | nil =>
    intro meta h
    simp only [getCatalogMetadata, Except.ok.injEq] at h
    simp [h.symm]
  | cons r rest ih =>
    intro meta h
    unfold getCatalogMetadata at h
    cases hr : metaRowOf r <;> rw [hr] at h
    case error => exact absurd h (by simp)
    case ok row =>
      cases hrec : getCatalogMetadata rest <;> rw [hrec] at h
      case error => exact absurd h (by simp)
      case ok tail =>
        simp only [Except.ok.injEq] at h
        rw [h.symm, List.map_cons, metaRowOf_ok_eq r row hr, ih tail hrec]

lemma mk_ok_metadata (table : String) (ds : List RawRecord) (c : jge_Catalog)
    (h : mkCatalogFromDs table ds = .ok c) :
    getCatalogMetadata ds = .ok c.Metadata := by
  unfold mkCatalogFromDs at h
  cases hfe : getCatalogFeatures ds <;> rw [hfe] at h
  case error => exact absurd h (by simp)
  case ok feats =>
    cases hme : getCatalogMetadata ds <;> rw [hme] at h
    case error => exact absurd h (by simp)
    case ok meta =>
      simp only [Except.ok.injEq] at h
      rw [h.symm]

lemma some_beq_some {α : Type} [BEq α] (a b : α) :
    ((some a == some b) : Bool) = (a == b) := rfl

lemma filter_map_congr {α β : Type} (f : α → β) (p : β → Bool) (q : α → Bool) :
    ∀ l : List α, (∀ a ∈ l, p (f a) = q a) →
      (l.map f).filter p = (l.filter q).map f := by
  intro l
  induction l with
  | nil => intro _; rfl
  | cons a l ih =>
    intro h
    have ha := h a (by simp)
    simp only [List.map_cons, List.filter_cons, ha]
    cases hq : q a <;>
      simp [ih (fun x hx => h x (by simp [hx])), hq]

/-- Claim C3: `getMetaData` (total in this embedding, hence never raising)
returns the empty result when no record matches the `(featureName,
versionID)` pair, and, when exactly one record matches, returns exactly that
record's first fields block — later blocks having been discarded at index
build time. -/
theorem getMetaData_spec (table : String) (ds : List RawRecord) (c : jge_Catalog)
    (n v : String) (hok : mkCatalogFromDs table ds = .ok c) :
    ((∀ r ∈ ds, ¬(r.featureName = some n ∧ r.versionID = some v)) →
        getMetaData c n v = [])
    ∧ (∀ r0 : RawRecord,
        ds.filter (fun r => r.featureName == some n && r.versionID == some v) = [r0] →
        ∃ b bs, r0.fields = some (b :: bs) ∧ getMetaData c n v = [b]) := by
  have hmeta : getCatalogMetadata ds = .ok c.Metadata := mk_ok_metadata table ds c hok
  have hproj : c.Metadata = ds.map projMeta := getCatalogMetadata_ok_eq ds c.Metadata hmeta
  have hcomp : ∀ r ∈ ds, metaComplete r = true :=
    (getCatalogMetadata_ok_iff ds).1 (by simp [hmeta, exceptOk])
  have hpq : ∀ r ∈ ds,
      ((fun m => m.featureName == n && m.versionID == v) (projMeta r))
        = ((fun r => r.featureName == some n && r.versionID == some v) r) := by
    intro r hr
    obtain ⟨h1, h2, _⟩ := metaComplete_shape r (hcomp r hr)
    show ((projMeta r).featureName == n && (projMeta r).versionID == v)
        = (r.featureName == some n && r.versionID == some v)
    rw [h1, h2, some_beq_some, some_beq_some]
  have hfil :
      c.Metadata.filter (fun m => m.featureName == n && m.versionID == v)
        = (ds.filter (fun r => r.featureName == some n && r.versionID == some v)).map projMeta := by
    rw [hproj]
    exact filter_map_congr projMeta _ _ ds hpq
  constructor
  · intro hA
    have hnil : ds.filter (fun r => r.featureName == some n && r.versionID == some v) = [] := by
      rw [List.filter_eq_nil_iff]
      intro a ha
      have hna := hA a ha
      simp only [Bool.and_eq_true, beq_iff_eq, not_and]
      exact fun h1 h2 => hna ⟨h1, h2⟩
    unfold getMetaData
    rw [hfil, hnil]
    rfl
  · intro r0 hone
    have hr0 : r0 ∈ ds := by
      have : r0 ∈ ds.filter (fun r => r.featureName == some n && r.versionID == some v) := by
        rw [hone]; simp
      exact List.mem_of_mem_filter this
    obtain ⟨_, _, bs, hbs⟩ := metaComplete_shape r0 (hcomp r0 hr0)
    refine ⟨(projMeta r0).fields, bs, hbs, ?_⟩
    unfold getMetaData
    rw [hfil, hone]
    rfl

def rawRec1 : RawRecord :=
  { featureName := some ("fA"), versionID := some ("v1"),
    featureType := some ("Raster Dataset"),
    location := some ("s3://bucket/a.zip"),
    fields := some [("blockA"), ("blockB")] }

def catA : jge_Catalog :=
  { table := ("jge-catalog-test-03"), Features := [featRow1],
    Metadata := [{ featureName := ("fA"), versionID := ("v1"), fields := ("blockA") }],
    FeaturesCount := 1 }

/-- Witness for claim C3 at a concrete one-record catalog: the matching pair
returns the record's first fields block only, and an absent pair returns the
empty result. -/
theorem getMetaData_spec_witness :
    mkCatalogFromDs ("jge-catalog-test-03") [rawRec1] = .ok catA
    ∧ (∃ b bs, rawRec1.fields = some (b :: bs)
        ∧ getMetaData catA ("fA") ("v1") = [b])
    ∧ getMetaData catA ("fX") ("v1") = [] := by
  refine ⟨rfl,
    (getMetaData_spec ("jge-catalog-test-03") [rawRec1] catA ("fA") ("v1") rfl).2
      rawRec1 (by decide),
    (getMetaData_spec ("jge-catalog-test-03") [rawRec1] catA ("fX") ("v1") rfl).1
      (by decide)⟩

/-- Strips the literal `s3://` head of the pattern
`r's3:\/\/(.*?)\/(.*)'`; `re.match` anchors at the start of the string. -/
def stripScheme : List Char → Option (List Char)
  | 's' :: '3' :: ':' :: '/' :: '/' :: rest => some rest
  | _ => none

/-- The non-greedy group `(.*?)` followed by `\/`: the bucket is the shortest
run of non-newline characters up to a `/` (regex `.` does not cross a
newline, so a newline before any `/` kills the match). -/
def splitBucket : List Char → Option (List Char × List Char)
  | [] => none
  | c :: cs =>
    if c = '/' then some ([], cs)
    else if c = '\n' then none
    else (splitBucket cs).map (fun p => (c :: p.1, p.2))

/-- `re.match` of `r's3:\/\/(.*?)\/(.*)'` on a character list: group 1 is the
bucket, group 2 the greedy `(.*)` key, which runs to the end of the line. -/
def reMatchBucketKey (s : List Char) : Option (List Char × List Char) :=
  (stripScheme s).bind (fun rest =>
    (splitBucket rest).map (fun p => (p.1, p.2.takeWhile (fun c => c != '\n'))))

/-- `jge_Catalog.__extractBucketAndKey__`: on a match, `m[1], m[2]` are the
bucket and key; when the match fails, `m` is `None` and `m[1]` raises
`TypeError` (subscripting `None`), which propagates to the caller. -/
def extractBucketAndKey (s3_location : String) : Except PyError (String × String) :=
  match reMatchBucketKey s3_location.data with
  | some (b, k) => .ok (String.mk b, String.mk k)
  | none => .error .typeError

/-- The spec's "expected pattern" `s3://bucket/key`: after the scheme, some
`/` must terminate the bucket on the first line. -/
def matchesLocationPattern (s : List Char) : Bool :=
  match stripScheme s with
  | some rest => (rest.takeWhile (fun c => c != '\n')).any (fun c => c == '/')
  | none => false

lemma splitBucket_clean (b : List Char) (k : List Char)
    (hslash : '/' ∉ b) (hnl : '\n' ∉ b) :
    splitBucket (b ++ '/' :: k) = some (b, k) := by
  induction b with
  | nil => simp [splitBucket]
  | cons c cs ih =>
    have hc1 : c ≠ '/' := fun h => hslash (by simp [h])
    have hc2 : c ≠ '\n' := fun h => hnl (by simp [h])
    have ih2 := ih (fun h => hslash (by simp [h])) (fun h => hnl (by simp [h]))
    simp [splitBucket, hc1, hc2, ih2]

lemma takeWhile_no_newline (k : List Char) (hnl : '\n' ∉ k) :
    k.takeWhile (fun c => c != '\n') = k := by
  induction k with
  | nil => rfl
  | cons c cs ih =>
    have hc : c ≠ '\n' := fun h => hnl (by simp [h])
    have ih2 := ih (fun h => hnl (by simp [h]))
    simp [List.takeWhile_cons, hc, ih2]

lemma splitBucket_isSome (rest : List Char) :
    (splitBucket rest).isSome
      = (rest.takeWhile (fun c => c != '\n')).any (fun c => c == '/') := by
  induction rest with
  | nil => rfl
  | cons c cs ih =>
    by_cases h1 : c = '/'
    · simp [splitBucket, h1, List.takeWhile_cons]
    · by_cases h2 : c = '\n'
      · simp [splitBucket, h1, h2, List.takeWhile_cons]
      · simp [splitBucket, h1, h2, List.takeWhile_cons, Option.isSome_map, ih]

/-- Claim C8: every storage location of the form `s3://bucket/key` (newlines
excluded, the bucket being the shortest segment up to a `/`) parses to
exactly the pair `(bucket, key)`, and every location string that fails the
expected pattern makes `__extractBucketAndKey__` raise (a `TypeError` from
subscripting the failed match), surfaced to the caller, rather than
returning partial values. -/
theorem extractBucketAndKey_spec :
    (∀ b k : List Char, '/' ∉ b → '\n' ∉ b → '\n' ∉ k →
      extractBucketAndKey
          (String.mk ('s' :: '3' :: ':' :: '/' :: '/' :: (b ++ '/' :: k)))
        = .ok (String.mk b, String.mk k))
    ∧ (∀ s : String, matchesLocationPattern s.data = false →
        extractBucketAndKey s = .error PyError.typeError) := by
  constructor
  · intro b k hsb hnb hnk
    unfold extractBucketAndKey
    have h1 : reMatchBucketKey ('s' :: '3' :: ':' :: '/' :: '/' :: (b ++ '/' :: k))
        = some (b, k) := by
      unfold reMatchBucketKey
      rw [show stripScheme ('s' :: '3' :: ':' :: '/' :: '/' :: (b ++ '/' :: k))
            = some (b ++ '/' :: k) from rfl]
      simp only [Option.some_bind, splitBucket_clean b k hsb hnb, Option.map_some',
        takeWhile_no_newline k hnk]
    rw [h1]
  · intro s hfail
    unfold extractBucketAndKey
    have h1 : reMatchBucketKey s.data = none := by
      unfold reMatchBucketKey
      unfold matchesLocationPattern at hfail
      cases hs : stripScheme s.data with
      | none => rfl
      | some rest =>
        rw [hs] at hfail
        have hfail2 : ((rest.takeWhile (fun c => c != '\n')).any (fun c => c == '/')) = false :=
          hfail
        have h2 : (splitBucket rest).isSome = false := by
          rw [splitBucket_isSome]; exact hfail2
        simp only [Option.some_bind]
        cases hsb : splitBucket rest with
        | none => rfl
        | some p => rw [hsb] at h2; simp at h2
    rw [h1]

/-- Witness for claim C8: a concrete well-formed location parses into its
bucket and key, and a concrete malformed location raises `TypeError`. -/
theorem extractBucketAndKey_spec_witness :
    extractBucketAndKey (String.mk ('s' :: '3' :: ':' :: '/' :: '/'
        :: ((['b', 'u', 'c', 'k'] : List Char) ++ '/' :: (['d', 'i', 'r', '/', 'f'] : List Char))))
      = .ok (String.mk (['b', 'u', 'c', 'k'] : List Char), String.mk (['d', 'i', 'r', '/', 'f'] : List Char))
    ∧ extractBucketAndKey ("http://bucket/key") = .error PyError.typeError
    ∧ extractBucketAndKey ("s3://no-slash-after-bucket") = .error PyError.typeError := by
  refine ⟨extractBucketAndKey_spec.1 (['b', 'u', 'c', 'k'] : List Char)
      (['d', 'i', 'r', '/', 'f'] : List Char) (by decide) (by decide) (by decide),
    extractBucketAndKey_spec.2 ("http://bucket/key") (by decide),
    extractBucketAndKey_spec.2 ("s3://no-slash-after-bucket") (by decide)⟩

/-- One compiled layer entry of `__compileDataset__` (the `data` payload, a
raw numpy array, is abstracted by the recorded `shape`). -/
structure CompiledLayer where
  versionID : String          -- entry key: s3-versionID
  featureType : String        -- entry key: feature-type
  shape : List Nat            -- entry key: shape
  columns : List String       -- entry key: columns
  deriving DecidableEq, Repr

/-- The compiled dict `dataset[0]`, keyed by layer name. -/
abbrev Dataset := List (String × CompiledLayer)

/-- A raster object of the workspace as seen through `arcpy`:
`RasterToNumPyArray` either yields an array of some shape or raises
`arcpy.ExecuteError` (modelled as `none`). -/
structure RasterObj where
  name : String
  readResult : Option (List Nat)
  deriving DecidableEq, Repr

/-- A vector (feature-class) object of the workspace as seen through
`arcpy`: `Describe`/`TableToNumPyArray` either yield the field schema and a
structured array of `rows` records, or raise `arcpy.ExecuteError`
(modelled as `none`). -/
structure VectorObj where
  name : String
  fields : List String
  readResult : Option Nat
  deriving DecidableEq, Repr

/-- The content of the file geodatabase at the active workspace path, in
`ListRasters`/`ListFeatureClasses` enumeration order. -/
structure Workspace where
  rasters : List RasterObj
  vectors : List VectorObj
  deriving DecidableEq, Repr

/-- The `arcpy.env` ambient state: the active workspace path. -/
structure ArcEnv where
  workspace : Option String
  deriving DecidableEq, Repr

/-- Python `if name not in dataset[0]: dataset[0][name] = layer` — first
occurrence wins, a later name collision does not overwrite. -/
def dictSetDefault (d : Dataset) (k : String) (x : CompiledLayer) : Dataset :=
  if dictHasKey d k then d else d ++ [(k, x)]

/-- The compiled entry for a readable raster: feature-type "Raster Dataset",
the array's shape, and empty columns. -/
def rasterLayer (versionID : String) (shape : List Nat) : CompiledLayer :=
  { versionID := versionID, featureType := ("Raster Dataset"), shape := shape,
    columns := [] }

/-- The compiled entry for a readable vector: feature-type "Feature Class",
the structured array's shape `(rows,)`, and the ordered field names. -/
def vectorLayer (versionID : String) (rows : Nat) (fields : List String) : CompiledLayer :=
  { versionID := versionID, featureType := ("Feature Class"), shape := [rows],
    columns := fields }

/-- First loop of `__compileDataset__`: each raster that reads successfully
is recorded under its name unless already present; an `arcpy.ExecuteError`
is caught, logged and skipped. -/
def compileRasters (versionID : String) (rasters : List RasterObj) (d : Dataset) : Dataset :=
  rasters.foldl (fun d r =>
    match r.readResult with
    | some shape => dictSetDefault d r.name (rasterLayer versionID shape)
    | none => d) d

/-- Second loop of `__compileDataset__`: each vector that reads successfully
is recorded under its name unless already present (also when a raster
already claimed the name); an `arcpy.ExecuteError` is caught, logged and
skipped. -/
def compileVectors (versionID : String) (vectors : List VectorObj) (d : Dataset) : Dataset :=
  vectors.foldl (fun d o =>
    match o.readResult with
    | some rows => dictSetDefault d o.name (vectorLayer versionID rows o.fields)
    | none => d) d

/-- `jge_Catalog.__compileDataset__`: sets `arcpy.env.workspace` to the gdb
path, starts from `dataset = [{}]`, runs the raster loop then the vector
loop over the workspace content, resets `arcpy.env.workspace = None`, and
returns the singleton list holding the compiled dict together with the final
ambient state. -/
def compileDataset (env : ArcEnv) (ws : Workspace) (abs_path_file_gdb versionID : String) :
    List Dataset × ArcEnv :=
  let env1 : ArcEnv := { env with workspace := some abs_path_file_gdb }
  let d0 : List Dataset := [[]]
  let d1 : Dataset := compileRasters versionID ws.rasters (d0.headD [])
  let d2 : Dataset := compileVectors versionID ws.vectors d1
  let env2 : ArcEnv := { env1 with workspace := none }
  ([d2], env2)

/-- The compiled mapping (the spec's `compile` return value): the dict held
in the singleton list returned by `__compileDataset__`. -/
def compileMap (env : ArcEnv) (ws : Workspace) (abs_path_file_gdb versionID : String) :
    Dataset :=
  ((compileDataset env ws abs_path_file_gdb versionID).1).headD []

/-- The (name, layer) entries the raster loop attempts to add, in order:
one per readable raster. -/
def rasterEntries (versionID : String) (rasters : List RasterObj) :
    List (String × CompiledLayer) :=
  rasters.filterMap (fun r => r.readResult.map (fun sh => (r.name, rasterLayer versionID sh)))

/-- The (name, layer) entries the vector loop attempts to add, in order:
one per readable vector. -/
def vectorEntries (versionID : String) (vectors : List VectorObj) :
    List (String × CompiledLayer) :=
  vectors.filterMap (fun o => o.readResult.map (fun n => (o.name, vectorLayer versionID n o.fields)))

/-- Insert a list of entries in order, first occurrence of a key winning. -/
def addAll (d : Dataset) (ps : List (String × CompiledLayer)) : Dataset :=
  ps.foldl (fun d p => dictSetDefault d p.1 p.2) d

/-- Left-biased choice on `Option` (first dict occurrence wins). -/
def orO {α : Type} : Option α → Option α → Option α
  | some x, _ => some x
  | none, y => y

lemma orO_right_none {α : Type} (a : Option α) : orO a none = a := by
  cases a <;> rfl

lemma orO_assoc {α : Type} (a b c : Option α) :
    orO (orO a b) c = orO a (orO b c) := by
  cases a <;> rfl

lemma compileRasters_eq_addAll (v : String) :
    ∀ (rs : List RasterObj) (d : Dataset),
      compileRasters v rs d = addAll d (rasterEntries v rs) := by
  intro rs
  induction rs with
  | nil => intro d; rfl
  | cons r rs ih =>
    intro d
    cases hr : r.readResult <;>
      simp [compileRasters, rasterEntries, addAll, List.filterMap_cons, hr, ih,
        List.foldl_cons] <;>
      exact ih _

lemma compileVectors_eq_addAll (v : String) :
    ∀ (vs : List VectorObj) (d : Dataset),
      compileVectors v vs d = addAll d (vectorEntries v vs) := by
  intro vs
  induction vs with
  | nil => intro d; rfl
  | cons o vs ih =>
    intro d
    cases ho : o.readResult <;>
      simp [compileVectors, vectorEntries, addAll, List.filterMap_cons, ho, ih,
        List.foldl_cons] <;>
      exact ih _

lemma compileMap_eq (env : ArcEnv) (ws : Workspace) (path v : String) :
    compileMap env ws path v
      = addAll (addAll [] (rasterEntries v ws.rasters)) (vectorEntries v ws.vectors) := by
  unfold compileMap compileDataset
  simp only [List.headD_cons]
  rw [compileRasters_eq_addAll, compileVectors_eq_addAll]

lemma dictHasKey_lookup {β : Type} (d : List (String × β)) (k : String) :
    dictHasKey d k = (List.lookup k d).isSome := by
  induction d with
  | nil => rfl
  | cons p t ih =>
    obtain ⟨a, b⟩ := p
    by_cases h : a = k
    · subst h; simp [dictHasKey, List.lookup]
    · have h1 : (a == k) = false := beq_eq_false_iff_ne.mpr h
      have h2 : (k == a) = false := beq_eq_false_iff_ne.mpr (Ne.symm h)
      simp only [dictHasKey, List.any_cons, h1, Bool.false_or, List.lookup, h2]
      exact ih

lemma lookup_append {β : Type} (k : String) :
    ∀ l1 l2 : List (String × β),
      List.lookup k (l1 ++ l2) = orO (List.lookup k l1) (List.lookup k l2) := by
  intro l1 l2
  induction l1 with
  | nil => rfl
  | cons p t ih =>
    obtain ⟨a, b⟩ := p
    by_cases h : k = a
    · subst h; simp [List.lookup, orO]
    · have h1 : (k == a) = false := beq_eq_false_iff_ne.mpr h
      simp [List.lookup, h1, ih]

lemma lookup_setDefault (d : Dataset) (kk k : String) (x : CompiledLayer) :
    List.lookup k (dictSetDefault d kk x)
      = orO (List.lookup k d) (if kk == k then some x else none) := by
  unfold dictSetDefault
  by_cases hh : dictHasKey d kk = true
  · rw [if_pos hh]
    by_cases he : kk = k
    · subst he
      have hks : (List.lookup kk d).isSome := by rw [← dictHasKey_lookup]; exact hh
      cases hl : List.lookup kk d with
      | some y => simp [hl, orO]
      | none => rw [hl] at hks; simp at hks
    · have h1 : (kk == k) = false := beq_eq_false_iff_ne.mpr he
      simp [h1, orO_right_none]
  · rw [if_neg hh, lookup_append]
    by_cases he : k = kk
    · subst he
      simp [List.lookup]
    · have h1 : (k == kk) = false := beq_eq_false_iff_ne.mpr he
      have h2 : (kk == k) = false := beq_eq_false_iff_ne.mpr (Ne.symm he)
      simp [List.lookup, h1, h2]

lemma lookup_addAll :
    ∀ (ps : List (String × CompiledLayer)) (d : Dataset) (k : String),
      List.lookup k (addAll d ps)
        = orO (List.lookup k d)
            ((ps.find? (fun p => p.1 == k)).map (fun p => p.2)) := by
  intro ps
  induction ps with
  | nil => intro d k; simp [addAll, orO_right_none]
  | cons p ps ih =>
    intro d k
    have hstep : addAll d (p :: ps) = addAll (dictSetDefault d p.1 p.2) ps := rfl
    rw [hstep, ih, lookup_setDefault, orO_assoc]
    cases hpk : (p.1 == k) with
    | true => simp [List.find?, hpk, orO]
    | false => simp [List.find?, hpk, orO]

lemma dictHasKey_setDefault (d : Dataset) (k : String) (x : CompiledLayer) (n : String) :
    dictHasKey (dictSetDefault d k x) n = (dictHasKey d n || (k == n)) := by
  unfold dictSetDefault
  by_cases hh : dictHasKey d k = true
  · rw [if_pos hh]
    by_cases he : k = n
    · subst he; simp [hh]
    · have h1 : (k == n) = false := beq_eq_false_iff_ne.mpr he
      simp [h1]
  · rw [if_neg hh]
    simp [dictHasKey, List.any_append]

lemma dictHasKey_addAll :
    ∀ (ps : List (String × CompiledLayer)) (d : Dataset) (n : String),
      dictHasKey (addAll d ps) n
        = (dictHasKey d n || ps.any (fun p => p.1 == n)) := by
  intro ps
  induction ps with
  | nil => intro d n; simp [addAll]
  | cons p ps ih =>
    intro d n
    have hstep : addAll d (p :: ps) = addAll (dictSetDefault d p.1 p.2) ps := rfl
    rw [hstep, ih, dictHasKey_setDefault, List.any_cons, Bool.or_assoc]

lemma dictHasKey_mem {β : Type} (d : List (String × β)) (k : String) :
    dictHasKey d k = true ↔ k ∈ d.map (fun p => p.1) := by
  simp [dictHasKey, List.any_eq_true, beq_iff_eq, List.mem_map]

lemma keys_addAll_nodup :
    ∀ (ps : List (String × CompiledLayer)) (d : Dataset),
      ((d.map (fun p => p.1)) ++ ps.map (fun p => p.1)).Nodup →
      (addAll d ps).map (fun p => p.1)
        = d.map (fun p => p.1) ++ ps.map (fun p => p.1) := by
  intro ps
  induction ps with
  | nil => intro d _; simp [addAll]
  | cons p ps ih =>
    intro d hnd
    rw [List.map_cons] at hnd
    have hmem : p.1 ∉ d.map (fun q => q.1) := by
      obtain ⟨-, -, hdisj⟩ := List.nodup_append.mp hnd
      exact fun hin => hdisj hin (by simp)
    have hk : dictHasKey d p.1 = false := by
      cases hcase : dictHasKey d p.1 with
      | true => exact absurd ((dictHasKey_mem d p.1).mp hcase) hmem
      | false => rfl
    have hkeys : (dictSetDefault d p.1 p.2).map (fun q => q.1)
        = d.map (fun q => q.1) ++ [p.1] := by
      simp [dictSetDefault, hk]
    have hstep : addAll d (p :: ps) = addAll (dictSetDefault d p.1 p.2) ps := rfl
    have hnd2 : ((dictSetDefault d p.1 p.2).map (fun q => q.1)
        ++ ps.map (fun q => q.1)).Nodup := by
      rw [hkeys, List.append_assoc, List.singleton_append]
      exact hnd
    rw [hstep, ih _ hnd2, hkeys, List.append_assoc, List.singleton_append,
      List.map_cons]

lemma rasterEntries_cons_none (v : String) (r : RasterObj) (rs : List RasterObj)
    (hr : r.readResult = none) :
    rasterEntries v (r :: rs) = rasterEntries v rs := by
  simp [rasterEntries, List.filterMap_cons, hr]

lemma rasterEntries_cons_some (v : String) (r : RasterObj) (rs : List RasterObj)
    (sh : List Nat) (hr : r.readResult = some sh) :
    rasterEntries v (r :: rs) = (r.name, rasterLayer v sh) :: rasterEntries v rs := by
  simp [rasterEntries, List.filterMap_cons, hr]

lemma vectorEntries_cons_none (v : String) (o : VectorObj) (vs : List VectorObj)
    (ho : o.readResult = none) :
    vectorEntries v (o :: vs) = vectorEntries v vs := by
  simp [vectorEntries, List.filterMap_cons, ho]

lemma vectorEntries_cons_some (v : String) (o : VectorObj) (vs : List VectorObj)
    (rows : Nat) (ho : o.readResult = some rows) :
    vectorEntries v (o :: vs) = (o.name, vectorLayer v rows o.fields) :: vectorEntries v vs := by
  simp [vectorEntries, List.filterMap_cons, ho]

lemma keys_rasterEntries (v : String) :
    ∀ rs : List RasterObj,
      (rasterEntries v rs).map (fun p => p.1)
        = (rs.filter (fun r => r.readResult.isSome)).map (fun r => r.name) := by
  intro rs
  induction rs with
  | nil => rfl
  | cons r rs ih =>
    cases hr : r.readResult with
    | none =>
      rw [rasterEntries_cons_none v r rs hr, ih, List.filter_cons]
      simp [hr]
    | some sh =>
      rw [rasterEntries_cons_some v r rs sh hr, List.map_cons, ih, List.filter_cons]
      simp [hr]

lemma keys_vectorEntries (v : String) :
    ∀ vs : List VectorObj,
      (vectorEntries v vs).map (fun p => p.1)
        = (vs.filter (fun o => o.readResult.isSome)).map (fun o => o.name) := by
  intro vs
  induction vs with
  | nil => rfl
  | cons o vs ih =>
    cases ho : o.readResult with
    | none =>
      rw [vectorEntries_cons_none v o vs ho, ih, List.filter_cons]
      simp [ho]
    | some rows =>
      rw [vectorEntries_cons_some v o vs rows ho, List.map_cons, ih, List.filter_cons]
      simp [ho]

lemma find?_rasterEntries (v : String) :
    ∀ rs : List RasterObj, (rs.map (fun r => r.name)).Nodup →
      ∀ r ∈ rs, ∀ sh, r.readResult = some sh →
        (rasterEntries v rs).find? (fun p => p.1 == r.name)
          = some (r.name, rasterLayer v sh) := by
  intro rs
  induction rs with
  | nil => intro _ r hr; exact absurd hr (List.not_mem_nil r)
  | cons r0 rs ih =>
    intro hnd r hr sh hsh
    rw [List.map_cons] at hnd
    have hhead : r0.name ∉ rs.map (fun q => q.name) := (List.nodup_cons.mp hnd).1
    have hnd' : (rs.map (fun q => q.name)).Nodup := (List.nodup_cons.mp hnd).2
    rcases List.mem_cons.mp hr with heq | hmem
    · subst heq
      simp only [rasterEntries, List.filterMap_cons, hsh, Option.map_some']
      simp [List.find?]
    · have hne : r0.name ≠ r.name := by
        intro hcontra
        exact hhead (hcontra ▸ List.mem_map_of_mem _ hmem)
      cases hr0 : r0.readResult with
      | none =>
        simp only [rasterEntries, List.filterMap_cons, hr0, Option.map_none']
        exact ih hnd' r hmem sh hsh
      | some sh0 =>
        simp only [rasterEntries, List.filterMap_cons, hr0, Option.map_some']
        have hc : ((r0.name == r.name) : Bool) = false := beq_eq_false_iff_ne.mpr hne
        simp only [List.find?, hc]
        exact ih hnd' r hmem sh hsh

lemma find?_vectorEntries (v : String) :
    ∀ vs : List VectorObj, (vs.map (fun o => o.name)).Nodup →
      ∀ o ∈ vs, ∀ rows, o.readResult = some rows →
        (vectorEntries v vs).find? (fun p => p.1 == o.name)
          = some (o.name, vectorLayer v rows o.fields) := by
  intro vs
  induction vs with
  | nil => intro _ o ho; exact absurd ho (List.not_mem_nil o)
  | cons o0 vs ih =>
    intro hnd o ho rows hrows
    rw [List.map_cons] at hnd
    have hhead : o0.name ∉ vs.map (fun q => q.name) := (List.nodup_cons.mp hnd).1
    have hnd' : (vs.map (fun q => q.name)).Nodup := (List.nodup_cons.mp hnd).2
    rcases List.mem_cons.mp ho with heq | hmem
    · subst heq
      simp only [vectorEntries, List.filterMap_cons, hrows, Option.map_some']
      simp [List.find?]
    · have hne : o0.name ≠ o.name := by
        intro hcontra
        exact hhead (hcontra ▸ List.mem_map_of_mem _ hmem)
      cases ho0 : o0.readResult with
      | none =>
        simp only [vectorEntries, List.filterMap_cons, ho0, Option.map_none']
        exact ih hnd' o hmem rows hrows
      | some rows0 =>
        simp only [vectorEntries, List.filterMap_cons, ho0, Option.map_some']
        have hc : ((o0.name == o.name) : Bool) = false := beq_eq_false_iff_ne.mpr hne
        simp only [List.find?, hc]
        exact ih hnd' o hmem rows hrows

lemma any_rasterEntries (v n : String) :
    ∀ rs : List RasterObj,
      (rasterEntries v rs).any (fun p => p.1 == n)
        = rs.any (fun r => r.readResult.isSome && r.name == n) := by
  intro rs
  induction rs with
  | nil => rfl
  | cons r rs ih =>
    cases hr : r.readResult with
    | none =>
      rw [rasterEntries_cons_none v r rs hr, ih, List.any_cons]
      simp [hr]
    | some sh =>
      rw [rasterEntries_cons_some v r rs sh hr, List.any_cons, List.any_cons, ih]
      simp [hr]

lemma any_vectorEntries (v n : String) :
    ∀ vs : List VectorObj,
      (vectorEntries v vs).any (fun p => p.1 == n)
        = vs.any (fun o => o.readResult.isSome && o.name == n) := by
  intro vs
  induction vs with
  | nil => rfl
  | cons o vs ih =>
    cases ho : o.readResult with
    | none =>
      rw [vectorEntries_cons_none v o vs ho, ih, List.any_cons]
      simp [ho]
    | some rows =>
      rw [vectorEntries_cons_some v o vs rows ho, List.any_cons, List.any_cons, ih]
      simp [ho]

/-- Claim C5: when layer names are distinct, `compile` returns a mapping
whose keys are exactly the readable raster names followed by the readable
vector names; each readable raster is recorded with feature-type
"Raster Dataset", its array shape and empty columns, and each readable
vector with feature-type "Feature Class", its row shape and its ordered
field names. -/
theorem compile_collects_readable_layers (env : ArcEnv) (ws : Workspace)
    (path versionID : String)
    (hnodup : (ws.rasters.map (fun r => r.name) ++ ws.vectors.map (fun o => o.name)).Nodup) :
    (compileMap env ws path versionID).map (fun p => p.1)
        = (ws.rasters.filter (fun r => r.readResult.isSome)).map (fun r => r.name)
          ++ (ws.vectors.filter (fun o => o.readResult.isSome)).map (fun o => o.name)
    ∧ (∀ r ∈ ws.rasters, ∀ sh, r.readResult = some sh →
        List.lookup r.name (compileMap env ws path versionID)
          = some (rasterLayer versionID sh))
    ∧ (∀ o ∈ ws.vectors, ∀ rows, o.readResult = some rows →
        List.lookup o.name (compileMap env ws path versionID)
          = some (vectorLayer versionID rows o.fields)) := by
  have hkr : (rasterEntries versionID ws.rasters).map (fun p => p.1)
      = (ws.rasters.filter (fun r => r.readResult.isSome)).map (fun r => r.name) :=
    keys_rasterEntries versionID ws.rasters
  have hkv : (vectorEntries versionID ws.vectors).map (fun p => p.1)
      = (ws.vectors.filter (fun o => o.readResult.isSome)).map (fun o => o.name) :=
    keys_vectorEntries versionID ws.vectors
  have hndr : (ws.rasters.map (fun r => r.name)).Nodup :=
    hnodup.of_append_left
  have hndv : (ws.vectors.map (fun o => o.name)).Nodup :=
    hnodup.of_append_right
  have hdisj : List.Disjoint (ws.rasters.map (fun r => r.name))
      (ws.vectors.map (fun o => o.name)) :=
    (List.nodup_append.mp hnodup).2.2
  have hsubr : (ws.rasters.filter (fun r => r.readResult.isSome)).map (fun r => r.name)
      ⊆ ws.rasters.map (fun r => r.name) :=
    List.map_subset _ (List.filter_sublist _).subset
  have hsubv : (ws.vectors.filter (fun o => o.readResult.isSome)).map (fun o => o.name)
      ⊆ ws.vectors.map (fun o => o.name) :=
    List.map_subset _ (List.filter_sublist _).subset
  have hndr2 : ((ws.rasters.filter (fun r => r.readResult.isSome)).map (fun r => r.name)).Nodup :=
    List.Nodup.sublist ((List.filter_sublist _).map _) hndr
  have hndv2 : ((ws.vectors.filter (fun o => o.readResult.isSome)).map (fun o => o.name)).Nodup :=
    List.Nodup.sublist ((List.filter_sublist _).map _) hndv
  have hnodup2 : ((ws.rasters.filter (fun r => r.readResult.isSome)).map (fun r => r.name)
      ++ (ws.vectors.filter (fun o => o.readResult.isSome)).map (fun o => o.name)).Nodup := by
    rw [List.nodup_append]
    exact ⟨hndr2, hndv2, fun a ha hb => hdisj (hsubr ha) (hsubv hb)⟩
  have hinnerkeys : (addAll [] (rasterEntries versionID ws.rasters)).map (fun p => p.1)
      = (ws.rasters.filter (fun r => r.readResult.isSome)).map (fun r => r.name) := by
    have := keys_addAll_nodup (rasterEntries versionID ws.rasters) [] (by
      simpa [hkr] using hndr2)
    simpa [hkr] using this
  refine ⟨?_, ?_, ?_⟩
  · rw [compileMap_eq]
    have := keys_addAll_nodup (vectorEntries versionID ws.vectors)
      (addAll [] (rasterEntries versionID ws.rasters)) (by
        rw [hinnerkeys, hkv]; exact hnodup2)
    rw [this, hinnerkeys, hkv]
  · intro r hrm sh hsh
    rw [compileMap_eq, lookup_addAll]
    have hinner : List.lookup r.name (addAll [] (rasterEntries versionID ws.rasters))
        = some (rasterLayer versionID sh) := by
      rw [lookup_addAll]
      simp only [List.lookup]
      rw [find?_rasterEntries versionID ws.rasters hndr r hrm sh hsh]
      rfl
    rw [hinner]
    rfl
  · intro o hom rows hrows
    rw [compileMap_eq, lookup_addAll]
    have hinner : List.lookup o.name (addAll [] (rasterEntries versionID ws.rasters))
        = none := by
      rw [lookup_addAll]
      simp only [List.lookup]
      have hfind : (rasterEntries versionID ws.rasters).find? (fun p => p.1 == o.name)
          = none := by
        rw [List.find?_eq_none]
        intro p hp
        have hpk : p.1 ∈ ws.rasters.map (fun r => r.name) := by
          refine hsubr ?_
          rw [← hkr]
          exact List.mem_map_of_mem _ hp
        have honame : o.name ∈ ws.vectors.map (fun q => q.name) :=
          List.mem_map_of_mem _ hom
        intro hbeq
        exact hdisj (((beq_iff_eq).mp hbeq) ▸ hpk) honame
      rw [hfind]
      rfl
    rw [hinner, find?_vectorEntries versionID ws.vectors hndv o hom rows hrows]
    rfl

def env0 : ArcEnv := { workspace := none }

def wsRV : Workspace :=
  { rasters := [{ name := ("R1"), readResult := some [10, 10] }],
    vectors := [{ name := ("V1"), fields := [("f1"), ("f2"), ("f3")],
                  readResult := some 5 }] }

/-- Witness for claim C5 at the spec's synthetic archive: one raster "R1" of
shape 10×10 and one vector "V1" with 3 fields and 5 rows compile to exactly
the keys R1 and V1 with the stated shapes and columns. -/
theorem compile_collects_readable_layers_witness :
    ((compileMap env0 wsRV ("gdb") ("v7")).map (fun p => p.1)
        = (wsRV.rasters.filter (fun r => r.readResult.isSome)).map (fun r => r.name)
          ++ (wsRV.vectors.filter (fun o => o.readResult.isSome)).map (fun o => o.name)
      ∧ (∀ r ∈ wsRV.rasters, ∀ sh, r.readResult = some sh →
          List.lookup r.name (compileMap env0 wsRV ("gdb") ("v7"))
            = some (rasterLayer ("v7") sh))
      ∧ (∀ o ∈ wsRV.vectors, ∀ rows, o.readResult = some rows →
          List.lookup o.name (compileMap env0 wsRV ("gdb") ("v7"))
            = some (vectorLayer ("v7") rows o.fields)))
    ∧ (compileMap env0 wsRV ("gdb") ("v7")).map (fun p => p.1) = [("R1"), ("V1")]
    ∧ List.lookup ("R1") (compileMap env0 wsRV ("gdb") ("v7"))
        = some { versionID := ("v7"), featureType := ("Raster Dataset"),
                 shape := [10, 10], columns := [] }
    ∧ List.lookup ("V1") (compileMap env0 wsRV ("gdb") ("v7"))
        = some { versionID := ("v7"), featureType := ("Feature Class"),
                 shape := [5], columns := [("f1"), ("f2"), ("f3")] } :=
  ⟨compile_collects_readable_layers env0 wsRV ("gdb") ("v7") (by decide),
    by decide, by decide, by decide⟩

/-- Claim C6: `compile` (total in this embedding — per-object read failures
are caught inside the loops, so no exception escapes) records a key exactly
when some readable raster or vector of the workspace bears that name:
unreadable objects are skipped, readable ones are always recorded. -/
theorem compile_skips_unreadable (env : ArcEnv) (ws : Workspace)
    (path versionID n : String) :
    dictHasKey (compileMap env ws path versionID) n
      = (ws.rasters.any (fun r => r.readResult.isSome && r.name == n)
         || ws.vectors.any (fun o => o.readResult.isSome && o.name == n)) := by
  rw [compileMap_eq, dictHasKey_addAll, dictHasKey_addAll,
    any_rasterEntries, any_vectorEntries]
  rfl

def wsMixed : Workspace :=
  { rasters := [{ name := ("R1"), readResult := none }],
    vectors := [{ name := ("V1"), fields := [("f1")], readResult := some 2 }] }

/-- Witness for claim C6 at the spec's fault-tolerance archive: one
unreadable raster and one readable vector compile to a mapping containing
only the vector. -/
theorem compile_skips_unreadable_witness :
    dictHasKey (compileMap env0 wsMixed ("gdb") ("v7")) ("R1")
      = (wsMixed.rasters.any (fun r => r.readResult.isSome && r.name == ("R1"))
         || wsMixed.vectors.any (fun o => o.readResult.isSome && o.name == ("R1")))
    ∧ dictHasKey (compileMap env0 wsMixed ("gdb") ("v7")) ("R1") = false
    ∧ (compileMap env0 wsMixed ("gdb") ("v7")).map (fun p => p.1) = [("V1")] :=
  ⟨compile_skips_unreadable env0 wsMixed ("gdb") ("v7") ("R1"), by decide, by decide⟩

/-- Claim C7: whatever ambient workspace was active before the call and
whatever the workspace content (including unreadable objects, whose
per-object failures the loops absorb), `__compileDataset__` leaves
`arcpy.env.workspace` unset on completion, so no workspace state leaks into
a subsequent call. -/
theorem compile_resets_workspace (env : ArcEnv) (ws : Workspace)
    (path versionID : String) :
    (compileDataset env ws path versionID).2.workspace = none := rfl

end Catalogs
